import Mathlib

/-!
Verification of the MCP client and agentic orchestration loop of
`src/agent/agent.py` via a shallow embedding in Lean 4.

The embedding covers:
* the JSON value model and a model of the standard `json.loads`
  (strict JSON grammar; a failed parse is `none`, mirroring a raised
  `JSONDecodeError`);
* `MCPClient._parse_sse`, `MCPClient.list_tools`, `MCPClient.call_tool`,
  the handshake and request-header logic (`MCPClient.__init__`,
  `MCPClient.initialize`, `MCPClient._headers`);
* `tools_to_anthropic_format`;
* `run_agent` (the bounded agentic loop), with the model endpoint and the
  tool endpoint both supplied as oracles (a function from round index to
  the parsed model response, and a function from tool name and arguments
  to the raw HTTP response body).

Fallible Python code is embedded with `Except Unit`, where `.error ()`
stands for a raised exception escaping the function.
-/

/-- JSON values, as produced by the Python `json` module.  Numbers keep
their source lexeme (no claim inspects numeric values); objects keep
their members in source order, possibly with duplicate keys, and lookups
take the last occurrence, as a Python dict built incrementally would. -/
inductive Json where
  | null
  | bool (b : Bool)
  | num (lexeme : String)
  | str (s : String)
  | arr (elems : List Json)
  | obj (members : List (String × Json))
deriving Repr

/-- Skip JSON whitespace, as the Python json decoder does. -/
def skipWs : List Char → List Char
  | [] => []
  | c :: cs => if c == ' ' || c == '\t' || c == '\n' || c == '\r' then skipWs cs else c :: cs

/-- Hexadecimal digit value, for string escapes of the form backslash-u. -/
def hexVal (c : Char) : Option Nat :=
  if '0' ≤ c ∧ c ≤ '9' then some (c.toNat - '0'.toNat)
  else if 'a' ≤ c ∧ c ≤ 'f' then some (c.toNat - 'a'.toNat + 10)
  else if 'A' ≤ c ∧ c ≤ 'F' then some (c.toNat - 'A'.toNat + 10)
  else none

/-- Single-character JSON string escapes. -/
def escChar : Char → Option Char
  | '"' => some '"'
  | '\\' => some '\\'
  | '/' => some '/'
  | 'b' => some (Char.ofNat 8)
  | 'f' => some (Char.ofNat 12)
  | 'n' => some '\n'
  | 'r' => some '\r'
  | 't' => some '\t'
  | _ => none

/-- Parse the body of a JSON string after the opening quote; returns the
decoded characters and the remaining input.  Raw control characters are
rejected, as in the strict Python decoder. -/
def parseStrBody : Nat → List Char → Option (List Char × List Char)
  | 0, _ => none
  | _ + 1, [] => none
  | fuel + 1, c :: cs =>
    if c == '"' then some ([], cs)
    else if c == '\\' then
      match cs with
      | [] => none
      | e :: cs2 =>
        if e == 'u' then
          match cs2 with
          | h1 :: h2 :: h3 :: h4 :: cs3 =>
            match hexVal h1, hexVal h2, hexVal h3, hexVal h4 with
            | some a, some b, some c2, some d =>
              match parseStrBody fuel cs3 with
              | some (out, rest) =>
                some (Char.ofNat (((a * 16 + b) * 16 + c2) * 16 + d) :: out, rest)
              | none => none
            | _, _, _, _ => none
          | _ => none
        else
          match escChar e with
          | some ec =>
            match parseStrBody fuel cs2 with
            | some (out, rest) => some (ec :: out, rest)
            | none => none
          | none => none
    else if c.toNat < 32 then none
    else
      match parseStrBody fuel cs with
      | some (out, rest) => some (c :: out, rest)
      | none => none

/-- Optional fractional part of a JSON number. -/
def parseFrac : List Char → Option (List Char × List Char)
  | '.' :: t =>
    let ds := t.takeWhile Char.isDigit
    if ds.isEmpty then none else some ('.' :: ds, t.dropWhile Char.isDigit)
  | cs => some ([], cs)

/-- Optional exponent part of a JSON number. -/
def parseExp : List Char → Option (List Char × List Char)
  | [] => some ([], [])
  | e :: t =>
    if e == 'e' || e == 'E' then
      let (sgn, t2) : List Char × List Char :=
        match t with
        | '+' :: u => (['+'], u)
        | '-' :: u => (['-'], u)
        | _ => ([], t)
      let ds := t2.takeWhile Char.isDigit
      if ds.isEmpty then none else some (e :: (sgn ++ ds), t2.dropWhile Char.isDigit)
    else some ([], e :: t)

/-- JSON number lexeme: optional minus, integer part, optional fraction
and exponent.  Returns the lexeme and the remaining input. -/
def parseNumLit (cs : List Char) : Option (List Char × List Char) :=
  let (sgn, cs1) : List Char × List Char :=
    match cs with
    | '-' :: t => (['-'], t)
    | _ => ([], cs)
  match cs1 with
  | [] => none
  | c :: _ =>
    if c.isDigit then
      let intPart := if c == '0' then ['0'] else cs1.takeWhile Char.isDigit
      let rest1 := if c == '0' then cs1.drop 1 else cs1.dropWhile Char.isDigit
      match parseFrac rest1 with
      | none => none
      | some (fr, rest2) =>
        match parseExp rest2 with
        | none => none
        | some (ex, rest3) => some (sgn ++ intPart ++ fr ++ ex, rest3)
    else none

/-- Keyword recognizer for the JSON literals true, false and null. -/
def litKw (kw : List Char) (cs : List Char) : Option (List Char) :=
  if kw.isPrefixOf cs then some (cs.drop kw.length) else none

mutual

/-- Parse one JSON value; fuel-bounded recursive descent. -/
def parseVal : Nat → List Char → Option (Json × List Char)
  | 0, _ => none
  | fuel + 1, cs =>
    match skipWs cs with
    | [] => none
    | c :: rest =>
      if c == '\x7b' then parseObjBody fuel rest
      else if c == '[' then parseArrBody fuel rest
      else if c == '"' then
        match parseStrBody fuel rest with
        | some (out, rest2) => some (.str (String.mk out), rest2)
        | none => none
      else if c == 't' then
        match litKw ['r', 'u', 'e'] rest with
        | some r => some (.bool true, r)
        | none => none
      else if c == 'f' then
        match litKw ['a', 'l', 's', 'e'] rest with
        | some r => some (.bool false, r)
        | none => none
      else if c == 'n' then
        match litKw ['u', 'l', 'l'] rest with
        | some r => some (.null, r)
        | none => none
      else
        match parseNumLit (c :: rest) with
        | some (lex, r) => some (.num (String.mk lex), r)
        | none => none

/-- Parse an array body after the opening bracket. -/
def parseArrBody : Nat → List Char → Option (Json × List Char)
  | 0, _ => none
  | fuel + 1, cs =>
    match skipWs cs with
    | ']' :: rest => some (.arr [], rest)
    | cs2 =>
      match parseArrItems fuel cs2 with
      | some (items, rest) => some (.arr items, rest)
      | none => none

/-- Parse the comma-separated items of a non-empty array. -/
def parseArrItems : Nat → List Char → Option (List Json × List Char)
  | 0, _ => none
  | fuel + 1, cs =>
    match parseVal fuel cs with
    | none => none
    | some (j, rest) =>
      match skipWs rest with
      | ',' :: rest2 =>
        match parseArrItems fuel rest2 with
        | some (items, rest3) => some (j :: items, rest3)
        | none => none
      | ']' :: rest2 => some ([j], rest2)
      | _ => none

/-- Parse an object body after the opening brace. -/
def parseObjBody : Nat → List Char → Option (Json × List Char)
  | 0, _ => none
  | fuel + 1, cs =>
    match skipWs cs with
    | '\x7d' :: rest => some (.obj [], rest)
    | cs2 =>
      match parseObjMembers fuel cs2 with
      | some (kvs, rest) => some (.obj kvs, rest)
      | none => none

/-- Parse the comma-separated members of a non-empty object. -/
def parseObjMembers : Nat → List Char → Option (List (String × Json) × List Char)
  | 0, _ => none
  | fuel + 1, cs =>
    match skipWs cs with
    | '"' :: rest =>
      match parseStrBody fuel rest with
      | none => none
      | some (key, rest2) =>
        match skipWs rest2 with
        | ':' :: rest3 =>
          match parseVal fuel rest3 with
          | none => none
          | some (v, rest4) =>
            match skipWs rest4 with
            | ',' :: rest5 =>
              match parseObjMembers fuel rest5 with
              | some (kvs, rest6) => some ((String.mk key, v) :: kvs, rest6)
              | none => none
            | '\x7d' :: rest5 => some ([(String.mk key, v)], rest5)
            | _ => none
        | _ => none
    | _ => none

end

/-- Model of `json.loads` on a character list: parse one JSON document,
requiring the rest of the input to be whitespace.  `none` stands for a
raised `json.JSONDecodeError`. -/
def jsonOfChars (cs : List Char) : Option Json :=
  match parseVal (3 * cs.length + 3) cs with
  | some (j, rest) => if (skipWs rest).isEmpty then some j else none
  | none => none

/-- Model of `json.loads` on a string. -/
def json_loads (s : String) : Option Json := jsonOfChars s.data


/-! ## Python helpers used by the client code -/

/-- Python `str.strip()` whitespace test (ASCII whitespace). -/
def isPyWs (c : Char) : Bool :=
  c == ' ' || c == '\t' || c == '\n' || c == '\r' || c == '\x0b' || c == '\x0c'

/-- Python `str.strip()`: drop leading and trailing whitespace. -/
def pyStrip (cs : List Char) : List Char :=
  ((cs.dropWhile isPyWs).reverse.dropWhile isPyWs).reverse

/-- Python `str.split(newline)`: split on each newline character;
the empty string yields one empty piece. -/
def splitNl : List Char → List (List Char)
  | [] => [[]]
  | c :: rest =>
    match splitNl rest with
    | [] => [[c]]
    | l :: ls => if c == '\n' then [] :: l :: ls else (c :: l) :: ls

/-- Python `s[:n]` on a string: the first `n` characters. -/
def pyTake (s : String) (n : Nat) : String := String.mk (s.data.take n)

/-- Lookup in a JSON object, last occurrence of the key winning, as in a
Python dict built by inserting the members in order. -/
def objGetLast : List (String × Json) → String → Option Json
  | [], _ => none
  | (k, v) :: rest, key =>
    match objGetLast rest key with
    | some v2 => some v2
    | none => if k == key then some v else none

/-- Python `d.get(key, dflt)`: raises (`.error`) when the receiver is not
a dict, otherwise returns the value at `key`, or `dflt` when absent. -/
def pyDictGet (j : Json) (key : String) (dflt : Json) : Except Unit Json :=
  match j with
  | .obj kvs => .ok ((objGetLast kvs key).getD dflt)
  | _ => .error ()

/-! ## MCPClient -/

/-- The mutable fields of `MCPClient` (`self.url`, `self.session_id`,
`self.tools`).  `tools` is the raw JSON value stored by `list_tools`
(initially the empty list). -/
structure MCPState where
  url : String
  session_id : Option String
  tools : Json

/-- `MCPClient.__init__`: no session, empty tool list. -/
def mcpInit (url : String) : MCPState := ⟨url, none, Json.arr []⟩

/-- The first line of the body carrying the prefix `data: `, with the
prefix stripped (`line[6:]`), scanning in order; `none` if no line has
the prefix.  This is the loop of `MCPClient._parse_sse`. -/
def findDataPayload : List (List Char) → Option (List Char)
  | [] => none
  | l :: ls =>
    if ("data: ".data).isPrefixOf l then some (l.drop 6) else findDataPayload ls

/-- `MCPClient._parse_sse`: split the stripped body on newlines and
return the JSON parse of the first `data: ` line (a parse failure there
raises, hence `.error ()`); with no such line, parse the whole raw body,
falling back to the empty object on failure. -/
def parse_sse (text : String) : Except Unit Json :=
  match findDataPayload (splitNl (pyStrip text.data)) with
  | some payload =>
    match jsonOfChars payload with
    | some j => .ok j
    | none => .error ()
  | none =>
    match json_loads text with
    | some j => .ok j
    | none => .ok (Json.obj [])

/-- `MCPClient.initialize`, state part: read the session id from the
`mcp-session-id` response header of the handshake (the response headers
are passed as a lookup function); absent is legal. -/
def mcpHandshake (st : MCPState) (respHeaders : String → Option String) : MCPState :=
  ⟨st.url, respHeaders "mcp-session-id", st.tools⟩

/-- `MCPClient._headers`: the `Accept` header always; the
`Mcp-Session-Id` header exactly when `self.session_id` is truthy, i.e.
present and non-empty. -/
def headersOf (st : MCPState) : List (String × String) :=
  match st.session_id with
  | some s =>
    if s == "" then [("Accept", "application/json, text/event-stream")]
    else [("Accept", "application/json, text/event-stream"), ("Mcp-Session-Id", s)]
  | none => [("Accept", "application/json, text/event-stream")]

/-- Dict lookup for a header map (keys unique here). -/
def lookupHeader : List (String × String) → String → Option String
  | [], _ => none
  | (k, v) :: rest, key => if k == key then some v else lookupHeader rest key

/-- An HTTP POST request as issued by the client: target URL, JSON body,
headers. -/
structure HttpRequest where
  url : String
  body : Json
  headers : List (String × String)

/-- The one-way `notifications/initialized` request sent at the end of
`MCPClient.initialize`, with `self._headers()`. -/
def notifInitRequest (st : MCPState) : HttpRequest :=
  ⟨st.url,
   .obj [("jsonrpc", .str "2.0"), ("method", .str "notifications/initialized")],
   headersOf st⟩

/-- The request issued by `MCPClient.list_tools`. -/
def list_tools_request (st : MCPState) : HttpRequest :=
  ⟨st.url,
   .obj [("jsonrpc", .str "2.0"), ("method", .str "tools/list"),
         ("id", .num "2"), ("params", .obj [])],
   headersOf st⟩

/-- The request issued by `MCPClient.call_tool`. -/
def call_tool_request (st : MCPState) (name : String) (args : Json) : HttpRequest :=
  ⟨st.url,
   .obj [("jsonrpc", .str "2.0"), ("method", .str "tools/call"), ("id", .num "3"),
         ("params", .obj [("name", .str name), ("arguments", args)])],
   headersOf st⟩

/-- `MCPClient.list_tools`, given the raw response body: parse it with
`_parse_sse`, take `data.get("result", ...).get("tools", [])`, store it
in `self.tools` and return it.  `.error ()` is a raised exception. -/
def list_tools (st : MCPState) (respBody : String) : Except Unit (Json × MCPState) :=
  match parse_sse respBody with
  | .error e => .error e
  | .ok data =>
    match pyDictGet data "result" (Json.obj []) with
    | .error e => .error e
    | .ok result =>
      match pyDictGet result "tools" (Json.arr []) with
      | .error e => .error e
      | .ok tools => .ok (tools, ⟨st.url, st.session_id, tools⟩)

/-- `MCPClient.call_tool`: the raw response body for a given tool name
and arguments is supplied by the oracle `toolResp`; parse it with
`_parse_sse` and return `data.get("result", ...)`.  The client state is
not modified by `call_tool`. -/
def call_tool (toolResp : String → Json → String) (name : String) (args : Json) :
    Except Unit Json :=
  match parse_sse (toolResp name args) with
  | .error e => .error e
  | .ok data => pyDictGet data "result" (Json.obj [])


/-! ## Claude agent: tool-schema translation -/

/-- Default `input_schema` used by `tools_to_anthropic_format`. -/
def defaultInputSchema : Json :=
  Json.obj [("type", .str "object"), ("properties", .obj [])]

/-- Body of the loop of `tools_to_anthropic_format`: maps one tool entry
`t` to the Anthropic shape.  `t["name"]` raises unless `t` is a dict
with a `name` key; `t.get("description", "")` and
`t.get("inputSchema", ...)` supply defaults only when absent. -/
def toolToAnthropic (t : Json) : Except Unit Json :=
  match t with
  | .obj kvs =>
    match objGetLast kvs "name" with
    | some nm =>
      .ok (.obj [("name", nm),
                 ("description", (objGetLast kvs "description").getD (.str "")),
                 ("input_schema", (objGetLast kvs "inputSchema").getD defaultInputSchema)])
    | none => .error ()
  | _ => .error ()

/-- The loop of `tools_to_anthropic_format` over a list of entries. -/
def toolsToAnthropicList : List Json → Except Unit (List Json)
  | [] => .ok []
  | t :: ts =>
    match toolToAnthropic t with
    | .error e => .error e
    | .ok a =>
      match toolsToAnthropicList ts with
      | .error e => .error e
      | .ok rest => .ok (a :: rest)

/-- `tools_to_anthropic_format(mcp_tools)`.  The stored catalog is an
arbitrary JSON value; iterating a non-list raises, except for the empty
string and the empty dict, whose iteration yields nothing (a non-empty
string yields characters and a non-empty dict yields keys, on which the
`t["name"]` subscript then raises). -/
def tools_to_anthropic_format (mcp_tools : Json) : Except Unit (List Json) :=
  match mcp_tools with
  | .arr ts => toolsToAnthropicList ts
  | .str s => if s == "" then .ok [] else .error ()
  | .obj kvs => if kvs.isEmpty then .ok [] else .error ()
  | _ => .error ()

/-! ## Claude agent: run_agent -/

/-- A content block of a model response, discriminated by its `type`
field as the source does (`b["type"]`): text blocks carry `b["text"]`,
tool-use blocks carry `b["id"]`, `b["name"]`, `b["input"]`; blocks of
any other type are ignored by every loop in `run_agent`. -/
inductive ContentBlock where
  | text (s : String)
  | tool_use (id : String) (name : String) (input : Json)
  | other (type : String)
deriving Repr

/-- One `tool_result` block as assembled by `run_agent`
(`"type": "tool_result"` with a `tool_use_id` and the truncated text). -/
structure ToolResultBlock where
  tool_use_id : String
  content : String
deriving Repr

/-- Message content: the plain user text, an assistant content-block
list, or a list of tool results. -/
inductive MsgContent where
  | str (s : String)
  | blocks (bs : List ContentBlock)
  | toolResults (rs : List ToolResultBlock)
deriving Repr

/-- One transcript message (`{"role": ..., "content": ...}`). -/
structure Message where
  role : String
  content : MsgContent
deriving Repr

/-- The fields of the parsed model-endpoint response body that
`run_agent` reads: `msg.get("error")`, `msg["content"]`,
`msg["stop_reason"]`. -/
structure ModelResponse where
  error : Option Json
  content : List ContentBlock
  stop_reason : String

/-- Python truthiness of a JSON value. -/
def jsonTruthy : Json → Bool
  | .null => false
  | .bool b => b
  | .num lexeme =>
    let cs : List Char :=
      match lexeme.data with
      | '-' :: t => t
      | l => l
    !((cs.takeWhile (fun c => !(c == 'e' || c == 'E'))).all (fun c => c == '0' || c == '.'))
  | .str s => !(s == "")
  | .arr xs => !xs.isEmpty
  | .obj kvs => !kvs.isEmpty

/-- The `if msg.get("error"):` test of `run_agent`: the error value when
the field is present and truthy, `none` otherwise. -/
def truthyErr (m : ModelResponse) : Option Json :=
  match m.error with
  | some e => if jsonTruthy e then some e else none
  | none => none

/-- Text extraction on `end_turn`: the `text` of each text-type block,
in order, joined with newline. -/
def joinTexts (bs : List ContentBlock) : String :=
  String.intercalate "\n"
    (bs.filterMap fun b =>
      match b with
      | .text s => some s
      | _ => none)

/-- `p.get("text", "")` for one content part, which must then be a
string for the `join` to accept it. -/
def partText (p : Json) : Except Unit String :=
  match pyDictGet p "text" (.str "") with
  | .error e => .error e
  | .ok t =>
    match t with
    | .str s => .ok s
    | _ => .error ()

/-- The generator `(p.get("text", "") for p in content_parts)`. -/
def partTexts : List Json → Except Unit (List String)
  | [] => .ok []
  | p :: ps =>
    match partText p with
    | .error e => .error e
    | .ok s =>
      match partTexts ps with
      | .error e => .error e
      | .ok ss => .ok (s :: ss)

/-- Collect the textual content of one tool-call result:
`result.get("content", [])` then join the parts with newline.  Iterating
a non-list raises, except for the empty string and empty dict, which
iterate as empty. -/
def collectText (result : Json) : Except Unit String :=
  match pyDictGet result "content" (Json.arr []) with
  | .error e => .error e
  | .ok parts =>
    match parts with
    | .arr ps =>
      match partTexts ps with
      | .error e => .error e
      | .ok ss => .ok (String.intercalate "\n" ss)
    | .str s => if s == "" then .ok "" else .error ()
    | .obj kvs => if kvs.isEmpty then .ok "" else .error ()
    | _ => .error ()

/-- Assemble one `tool_result` block from a parsed tool-call result:
the joined text truncated to 10000 characters (`text[:10000]`), paired
with the requesting block id. -/
def resultBlockOf (id : String) (result : Json) : Except Unit ToolResultBlock :=
  match collectText result with
  | .error e => .error e
  | .ok t => .ok ⟨id, pyTake t 10000⟩

/-- Handle one `tool_use` block: invoke `mcp.call_tool` and build the
result block. -/
def mkOneResult (toolResp : String → Json → String) (id name : String) (input : Json) :
    Except Unit ToolResultBlock :=
  match call_tool toolResp name input with
  | .error e => .error e
  | .ok result => resultBlockOf id result

/-- The `for block in msg["content"]` loop of the `tool_use` branch:
one result block per tool-use block, other blocks skipped. -/
def mkToolResults (toolResp : String → Json → String) :
    List ContentBlock → Except Unit (List ToolResultBlock)
  | [] => .ok []
  | .tool_use id name input :: rest =>
    match mkOneResult toolResp id name input with
    | .error e => .error e
    | .ok r =>
      match mkToolResults toolResp rest with
      | .error e => .error e
      | .ok rs => .ok (r :: rs)
  | _ :: rest => mkToolResults toolResp rest

/-- The tool-use blocks of a content list, as (id, name, input). -/
def toolUses (bs : List ContentBlock) : List (String × String × Json) :=
  bs.filterMap fun b =>
    match b with
    | .tool_use id name input => some (id, name, input)
    | _ => none

/-- The assistant message appended for a model response. -/
def assistantMsgOf (m : ModelResponse) : Message :=
  ⟨"assistant", .blocks m.content⟩

/-- How a turn ends.  `finalText` is the returned answer text,
`errorOut e` the string built from a truthy `msg["error"]`,
`maxIterations` the fixed text `Reached maximum iterations.`, and
`raised` an uncaught exception escaping `run_agent`. -/
inductive AgentResult where
  | finalText (s : String)
  | errorOut (e : Json)
  | maxIterations
  | raised
deriving Repr

/-- Observable outcome of a turn: the result, the number of model
round-trips performed, the final transcript, and the final client
state. -/
structure Outcome where
  result : AgentResult
  rounds : Nat
  conv : List Message
  mcp : MCPState

/-- Count one more model round-trip in an outcome. -/
def addRound (o : Outcome) : Outcome := ⟨o.result, o.rounds + 1, o.conv, o.mcp⟩

/-- The `for _ in range(10)` loop of `run_agent`.  `fuel` is the number
of remaining iterations, `k` the index of the current round-trip (the
model oracle is consulted at `k`).  Each iteration: query the model;
return on a truthy error; append the assistant message; return the
joined text on `end_turn`; on `tool_use` invoke every requested tool and
append all results as one user message (a raised tool-call exception
aborts the turn); on any other stop reason just continue. -/
def run_loop (model : Nat → ModelResponse) (toolResp : String → Json → String) :
    Nat → Nat → List Message → MCPState → Outcome
  | 0, _, conv, st => ⟨.maxIterations, 0, conv, st⟩
  | fuel + 1, k, conv, st =>
    let msg := model k
    match truthyErr msg with
    | some e => ⟨.errorOut e, 1, conv, st⟩
    | none =>
      let conv1 := conv ++ [assistantMsgOf msg]
      if msg.stop_reason == "end_turn" then
        ⟨.finalText (joinTexts msg.content), 1, conv1, st⟩
      else if msg.stop_reason == "tool_use" then
        match mkToolResults toolResp msg.content with
        | .error _ => ⟨.raised, 1, conv1, st⟩
        | .ok rs =>
          addRound (run_loop model toolResp fuel (k + 1)
            (conv1 ++ [⟨"user", .toolResults rs⟩]) st)
      else
        addRound (run_loop model toolResp fuel (k + 1) conv1 st)

/-- `run_agent(user_message, mcp, conversation)`: translate the catalog
(a raised exception there escapes before the user message is appended),
append the user message, then run the loop for at most 10 rounds. -/
def run_agent (model : Nat → ModelResponse) (toolResp : String → Json → String)
    (user_message : String) (st : MCPState) (conversation : List Message) : Outcome :=
  match tools_to_anthropic_format st.tools with
  | .error _ => ⟨.raised, 0, conversation, st⟩
  | .ok _anthropic_tools =>
    run_loop model toolResp 10 0
      (conversation ++ [⟨"user", .str user_message⟩]) st

/-! ## Claim C1 -/

/-- Claim C1 as stated is false: `_parse_sse` does raise.  On the body
`data: not json` the first data-prefixed line exists but its payload is
not JSON, and `json.loads(line[6:])` is outside the try block, so the
exception propagates instead of an empty result being returned. -/
theorem claim_C1_cex : parse_sse "data: not json" = Except.error () := by rfl

/-- Claim C1, amended: `_parse_sse` returns the JSON parse of the first
`data: `-prefixed line if such a line exists and its payload parses
(raising a JSON decode error when the payload does not parse); with no
such line it returns the JSON parse of the entire body, and if that also
fails, the empty result.  It never raises on bodies without a
data-prefixed line. -/
theorem claim_C1_amended (t : String) :
    (∀ p j, findDataPayload (splitNl (pyStrip t.data)) = some p →
      jsonOfChars p = some j → parse_sse t = .ok j)
    ∧ (∀ p, findDataPayload (splitNl (pyStrip t.data)) = some p →
      jsonOfChars p = none → parse_sse t = .error ())
    ∧ (findDataPayload (splitNl (pyStrip t.data)) = none →
      parse_sse t = .ok ((json_loads t).getD (Json.obj []))) := by
  refine ⟨fun p j hp hj => ?_, fun p hp hj => ?_, fun hp => ?_⟩
  · simp [parse_sse, hp, hj]
  · simp [parse_sse, hp, hj]
  · simp only [parse_sse, hp]
    cases h : json_loads t <;> simp [h]

/-- Witness for claim C1 at a concrete body with no data-prefixed line. -/
theorem claim_C1_witness : parse_sse "not json" = .ok (Json.obj []) := by
  rw [(claim_C1_amended "not json").2.2 rfl]
  rfl

/-! ## Claim C2 -/

/-- Claim C2 as stated is false: on the malformed body `not json`
(no data-prefixed line, not valid JSON) `list_tools` succeeds with an
empty catalog instead of failing with a protocol error. -/
theorem claim_C2_cex :
    list_tools (mcpInit "u") "not json" = .ok (Json.arr [], mcpInit "u") := by rfl

/-- Claim C2, amended: `list_tools` raises only when the body carries a
data-prefixed line whose payload is not valid JSON (at startup that
exception aborts initialization); on a body with no data-prefixed line
that is not valid whole-body JSON it succeeds and stores the empty
catalog. -/
theorem claim_C2_amended (st : MCPState) (body : String) :
    (∀ p, findDataPayload (splitNl (pyStrip body.data)) = some p →
      jsonOfChars p = none → list_tools st body = .error ())
    ∧ (findDataPayload (splitNl (pyStrip body.data)) = none →
      json_loads body = none →
      list_tools st body = .ok (Json.arr [], ⟨st.url, st.session_id, Json.arr []⟩)) := by
  constructor
  · intro p hp hj
    simp [list_tools, parse_sse, hp, hj]
  · intro hp hj
    simp [list_tools, parse_sse, hp, hj, pyDictGet, objGetLast]

/-- Witness for claim C2: a malformed data-prefixed line raises, and a
malformed plain body yields the empty catalog. -/
theorem claim_C2_witness :
    list_tools (mcpInit "u") "data: \x7bnope" = .error ()
    ∧ list_tools (mcpInit "u") "\x7bnope" =
        .ok (Json.arr [], ⟨"u", none, Json.arr []⟩) := by
  constructor
  · exact (claim_C2_amended (mcpInit "u") "data: \x7bnope").1 ("\x7bnope".data) rfl rfl
  · exact (claim_C2_amended (mcpInit "u") "\x7bnope").2 rfl rfl

/-! ## Claim C6 -/

/-- Handshake response headers carrying an empty session id, for the
counterexample to claim C6. -/
def sessHdrEmpty : String → Option String :=
  fun k => if k == "mcp-session-id" then some "" else none

/-- Handshake response headers carrying the session id `abc`, for the
witness of claim C6. -/
def sessHdrAbc : String → Option String :=
  fun k => if k == "mcp-session-id" then some "abc" else none

/-- Claim C6 as stated is false for the string S equal to the empty
string: when the handshake response carries `mcp-session-id` with an
empty value, `if self.session_id:` is falsy and every subsequent request
omits the session header. -/
theorem claim_C6_cex :
    sessHdrEmpty "mcp-session-id" = some ""
    ∧ lookupHeader (list_tools_request (mcpHandshake (mcpInit "u") sessHdrEmpty)).headers
        "Mcp-Session-Id" = none
    ∧ lookupHeader (call_tool_request (mcpHandshake (mcpInit "u") sessHdrEmpty)
        "t" Json.null).headers "Mcp-Session-Id" = none
    ∧ lookupHeader (notifInitRequest (mcpHandshake (mcpInit "u") sessHdrEmpty)).headers
        "Mcp-Session-Id" = none := by
  exact ⟨rfl, rfl, rfl, rfl⟩

/-- Claim C6, amended: for every non-empty string S, if the handshake
response carries the `mcp-session-id` header with value S then every
subsequent request (the initialized notification, `list_tools`,
`call_tool`) includes S in the `Mcp-Session-Id` header; if the handshake
response has no such header, every subsequent request omits the session
header (and so it does for an empty S, by the counterexample). -/
theorem claim_C6_amended (st : MCPState) (resph : String → Option String)
    (name : String) (args : Json) (S : String) :
    (resph "mcp-session-id" = some S → S ≠ "" →
      lookupHeader (notifInitRequest (mcpHandshake st resph)).headers
          "Mcp-Session-Id" = some S
      ∧ lookupHeader (list_tools_request (mcpHandshake st resph)).headers
          "Mcp-Session-Id" = some S
      ∧ lookupHeader (call_tool_request (mcpHandshake st resph) name args).headers
          "Mcp-Session-Id" = some S)
    ∧ (resph "mcp-session-id" = none →
      lookupHeader (notifInitRequest (mcpHandshake st resph)).headers
          "Mcp-Session-Id" = none
      ∧ lookupHeader (list_tools_request (mcpHandshake st resph)).headers
          "Mcp-Session-Id" = none
      ∧ lookupHeader (call_tool_request (mcpHandshake st resph) name args).headers
          "Mcp-Session-Id" = none) := by
  constructor
  · intro hS hne
    have hh : headersOf (mcpHandshake st resph) =
        [("Accept", "application/json, text/event-stream"), ("Mcp-Session-Id", S)] := by
      simp [headersOf, mcpHandshake, hS, hne]
    refine ⟨?_, ?_, ?_⟩ <;>
      simp [notifInitRequest, list_tools_request, call_tool_request, hh, lookupHeader]
  · intro hS
    have hh : headersOf (mcpHandshake st resph) =
        [("Accept", "application/json, text/event-stream")] := by
      simp [headersOf, mcpHandshake, hS]
    refine ⟨?_, ?_, ?_⟩ <;>
      simp [notifInitRequest, list_tools_request, call_tool_request, hh, lookupHeader]

/-- Witness for claim C6 at the concrete session id `abc`. -/
theorem claim_C6_witness :
    lookupHeader (list_tools_request (mcpHandshake (mcpInit "u") sessHdrAbc)).headers
        "Mcp-Session-Id" = some "abc" := by
  exact ((claim_C6_amended (mcpInit "u") sessHdrAbc "t" Json.null "abc").1
    rfl (by decide)).2.1

/-! ## Claim C5 -/

/-- Claim C5: for every catalog (a list of tool entries each of which is
an object carrying a `name` key), `tools_to_anthropic_format` succeeds,
preserves length and order, and maps each entry to an object with the
same `name`, the `description` of the entry or the empty string when
absent, and the `inputSchema` of the entry or the default object schema
when absent. -/
theorem claim_C5_total_order_preserving (ts : List Json)
    (h : ∀ t ∈ ts, ∃ kvs nm, t = Json.obj kvs ∧ objGetLast kvs "name" = some nm) :
    ∃ out, tools_to_anthropic_format (Json.arr ts) = .ok out
      ∧ out.length = ts.length
      ∧ List.Forall₂ (fun t o => ∀ kvs, t = Json.obj kvs →
          o = Json.obj [("name", (objGetLast kvs "name").getD Json.null),
                        ("description", (objGetLast kvs "description").getD (.str "")),
                        ("input_schema", (objGetLast kvs "inputSchema").getD defaultInputSchema)])
          ts out := by
  induction ts with
  | nil => exact ⟨[], rfl, rfl, List.Forall₂.nil⟩
  | cons t ts ih =>
    obtain ⟨kvs, nm, rfl, hnm⟩ := h _ (List.mem_cons_self _ _)
    obtain ⟨out, hout, hlen, hfa⟩ := ih (fun u hu => h u (List.mem_cons_of_mem _ hu))
    refine ⟨Json.obj [("name", nm),
              ("description", (objGetLast kvs "description").getD (.str "")),
              ("input_schema", (objGetLast kvs "inputSchema").getD defaultInputSchema)]
            :: out, ?_, by simp [hlen], ?_⟩
    · have : tools_to_anthropic_format (Json.arr ts) = toolsToAnthropicList ts := rfl
      simp only [tools_to_anthropic_format] at hout ⊢
      simp [toolsToAnthropicList, toolToAnthropic, hnm, hout]
    · refine List.Forall₂.cons (fun kvs2 heq => ?_) hfa
      injection heq with h2
      subst h2
      simp [hnm]

/-- Witness for claim C5 at the one-entry catalog whose tool is named
`x` with no description and no input schema. -/
theorem claim_C5_witness :
    ∃ out, tools_to_anthropic_format (Json.arr [Json.obj [("name", Json.str "x")]]) = .ok out
      ∧ out.length = 1
      ∧ List.Forall₂ (fun t o => ∀ kvs, t = Json.obj kvs →
          o = Json.obj [("name", (objGetLast kvs "name").getD Json.null),
                        ("description", (objGetLast kvs "description").getD (.str "")),
                        ("input_schema", (objGetLast kvs "inputSchema").getD defaultInputSchema)])
          [Json.obj [("name", Json.str "x")]] out := by
  exact claim_C5_total_order_preserving [Json.obj [("name", Json.str "x")]]
    (fun t ht => by
      rw [List.mem_singleton] at ht
      exact ⟨[("name", Json.str "x")], Json.str "x", ht, rfl⟩)

/-! ## Claim C8 -/

/-- Claim C8: whenever the model response of the current round-trip has
stop reason `end_turn` (the source spelling of end_of_turn) and no
error, the loop returns the text-type content blocks joined with
newline, after appending the assistant message; in particular a turn
whose first response is such a response returns that joined text. -/
theorem claim_C8_end_turn (model : Nat → ModelResponse) (toolResp : String → Json → String) :
    (∀ fuel k conv st, truthyErr (model k) = none → (model k).stop_reason = "end_turn" →
      run_loop model toolResp (fuel + 1) k conv st =
        ⟨.finalText (joinTexts (model k).content), 1, conv ++ [assistantMsgOf (model k)], st⟩)
    ∧ (∀ umsg st conv ats, tools_to_anthropic_format st.tools = .ok ats →
      truthyErr (model 0) = none → (model 0).stop_reason = "end_turn" →
      run_agent model toolResp umsg st conv =
        ⟨.finalText (joinTexts (model 0).content), 1,
         conv ++ [⟨"user", .str umsg⟩, assistantMsgOf (model 0)], st⟩) := by
  have hloop : ∀ fuel k conv st, truthyErr (model k) = none →
      (model k).stop_reason = "end_turn" →
      run_loop model toolResp (fuel + 1) k conv st =
        ⟨.finalText (joinTexts (model k).content), 1, conv ++ [assistantMsgOf (model k)], st⟩ := by
    intro fuel k conv st hne hsr
    simp [run_loop, hne, hsr]
  refine ⟨hloop, fun umsg st conv ats hats hne hsr => ?_⟩
  have h := hloop 9 0 (conv ++ [⟨"user", .str umsg⟩]) st hne hsr
  simp only [run_agent, hats]
  rw [h]
  simp

/-- Witness for claim C8: one response with stop reason `end_turn` and
two text blocks `Hello` and `world` yields the final text
`Hello` newline `world`. -/
theorem claim_C8_witness :
    run_agent (fun _ => ⟨none, [.text "Hello", .text "world"], "end_turn"⟩)
      (fun _ _ => "") "hi" (mcpInit "u") [] =
      ⟨.finalText "Hello\nworld", 1,
       [⟨"user", .str "hi"⟩,
        ⟨"assistant", .blocks [.text "Hello", .text "world"]⟩], mcpInit "u"⟩ := by
  have h := (claim_C8_end_turn (fun _ => ⟨none, [.text "Hello", .text "world"], "end_turn"⟩)
    (fun _ _ => "")).2 "hi" (mcpInit "u") [] [] rfl rfl rfl
  rw [h]
  rfl

/-! ## Claim C10 -/

/-- Claim C10: a model response whose `error` field is present and
truthy makes the loop return that error immediately and atomically: the
transcript is exactly as it was before the round-trip (no assistant
message and no tool-result message for that round-trip) and the client
state (session id, tool catalog) is unchanged; at the level of
`run_agent`, when the first response errors, the new user message has
been appended exactly once and nothing else. -/
theorem claim_C10_error_atomic (model : Nat → ModelResponse)
    (toolResp : String → Json → String) :
    (∀ fuel k conv st e, truthyErr (model k) = some e →
      run_loop model toolResp (fuel + 1) k conv st = ⟨.errorOut e, 1, conv, st⟩)
    ∧ (∀ umsg st conv ats e, tools_to_anthropic_format st.tools = .ok ats →
      truthyErr (model 0) = some e →
      run_agent model toolResp umsg st conv =
        ⟨.errorOut e, 1, conv ++ [⟨"user", .str umsg⟩], st⟩) := by
  have hloop : ∀ fuel k conv st e, truthyErr (model k) = some e →
      run_loop model toolResp (fuel + 1) k conv st = ⟨.errorOut e, 1, conv, st⟩ := by
    intro fuel k conv st e he
    simp [run_loop, he]
  refine ⟨hloop, fun umsg st conv ats e hats he => ?_⟩
  simp only [run_agent, hats]
  exact hloop 9 0 (conv ++ [⟨"user", .str umsg⟩]) st e he

/-- Witness for claim C10 at a concrete erroring first response. -/
theorem claim_C10_witness :
    run_agent (fun _ => ⟨some (.obj [("type", .str "overloaded_error")]), [], "end_turn"⟩)
      (fun _ _ => "") "hi" (mcpInit "u") [] =
      ⟨.errorOut (.obj [("type", .str "overloaded_error")]), 1,
       [⟨"user", .str "hi"⟩], mcpInit "u"⟩ := by
  exact (claim_C10_error_atomic
    (fun _ => ⟨some (.obj [("type", .str "overloaded_error")]), [], "end_turn"⟩)
    (fun _ _ => "")).2 "hi" (mcpInit "u") [] []
    (.obj [("type", .str "overloaded_error")]) rfl rfl

/-! ## Claim C9 -/

/-- Claim C9: the content placed into an assembled tool-result block is
the joined textual result truncated to the first 10000 characters
(`text[:10000]`); a result at or below the ceiling is placed unchanged,
and a result of exactly 20000 characters is cut to exactly 10000. -/
theorem claim_C9_truncation (id : String) (result : Json) (t : String)
    (ht : collectText result = .ok t) :
    resultBlockOf id result = .ok ⟨id, pyTake t 10000⟩
    ∧ (∀ toolResp name input, call_tool toolResp name input = .ok result →
        mkOneResult toolResp id name input = .ok ⟨id, pyTake t 10000⟩)
    ∧ (t.length ≤ 10000 → pyTake t 10000 = t)
    ∧ (t.length = 20000 → (pyTake t 10000).length = 10000) := by
  refine ⟨by simp [resultBlockOf, ht], fun toolResp name input hc => ?_, fun hle => ?_, fun h20 => ?_⟩
  · simp [mkOneResult, hc, resultBlockOf, ht]
  · obtain ⟨cs⟩ := t
    simp only [pyTake]
    rw [List.take_of_length_le hle]
  · obtain ⟨cs⟩ := t
    have hlen : cs.length = 20000 := h20
    simp only [pyTake, String.length]
    rw [List.length_take, hlen]
    omega

/-- A 20000-character string, for the witness of claim C9. -/
def bigText : String := String.mk (List.replicate 20000 'a')

/-- A tool-call result holding one 20000-character text part, for the
witness of claim C9. -/
def bigToolResult : Json :=
  Json.obj [("content", Json.arr [Json.obj [("text", Json.str bigText)]])]

/-- Witness for claim C9: a tool result holding one text part of 20000
characters is truncated to exactly 10000 characters. -/
theorem claim_C9_witness :
    resultBlockOf "toolu_9" bigToolResult = .ok ⟨"toolu_9", pyTake bigText 10000⟩
    ∧ (pyTake bigText 10000).length = 10000 := by
  have h := claim_C9_truncation "toolu_9" bigToolResult bigText (by rfl)
  have hlen : bigText.length = 20000 := by
    show (List.replicate 20000 'a').length = 20000
    rw [List.length_replicate]
  exact ⟨h.1, h.2.2.2 hlen⟩

/-! ## Claim C7 -/

/-- The pairing invariant between one tool-use block (id, name, input)
and the assembled result block: same invocation id, and the content is
the joined text of the tool-call result, truncated. -/
def PairedResult (toolResp : String → Json → String)
    (u : String × String × Json) (r : ToolResultBlock) : Prop :=
  r.tool_use_id = u.1
  ∧ ∃ j t, call_tool toolResp u.2.1 u.2.2 = .ok j ∧ collectText j = .ok t
      ∧ r.content = pyTake t 10000

/-- Successful tool-result assembly produces exactly one result block
per tool-use block, in order, each paired as `PairedResult`. -/
lemma mkToolResults_spec (toolResp : String → Json → String) :
    ∀ (bs : List ContentBlock) (rs : List ToolResultBlock),
      mkToolResults toolResp bs = .ok rs →
      List.Forall₂ (PairedResult toolResp) (toolUses bs) rs := by
  intro bs
  induction bs with
  | nil =>
    intro rs h
    simp only [mkToolResults] at h
    injection h with h
    subst h
    exact List.Forall₂.nil
  | cons b rest ih =>
    intro rs h
    cases b with
    | text s =>
      simpa [toolUses, List.filterMap_cons] using ih rs (by simpa [mkToolResults] using h)
    | other ty =>
      simpa [toolUses, List.filterMap_cons] using ih rs (by simpa [mkToolResults] using h)
    | tool_use id name input =>
      simp only [mkToolResults] at h
      cases h1 : mkOneResult toolResp id name input with
      | error e => rw [h1] at h; exact absurd h (by simp)
      | ok r =>
        rw [h1] at h
        cases h2 : mkToolResults toolResp rest with
        | error e => rw [h2] at h; exact absurd h (by simp)
        | ok rs1 =>
          rw [h2] at h
          injection h with h
          subst h
          have hpair : PairedResult toolResp (id, name, input) r := by
            simp only [mkOneResult] at h1
            cases h3 : call_tool toolResp name input with
            | error e => rw [h3] at h1; exact absurd h1 (by simp)
            | ok j =>
              rw [h3] at h1
              simp only [resultBlockOf] at h1
              cases h4 : collectText j with
              | error e => rw [h4] at h1; exact absurd h1 (by simp)
              | ok t =>
                rw [h4] at h1
                injection h1 with h1
                subst h1
                exact ⟨rfl, j, t, h3, h4, rfl⟩
          have : toolUses (ContentBlock.tool_use id name input :: rest) =
              (id, name, input) :: toolUses rest := by
            simp [toolUses, List.filterMap_cons]
          rw [this]
          exact List.Forall₂.cons hpair (ih rs1 h2)

/-- Claim C7: on a `tool_use` response, the loop assembles exactly one
tool-result block per tool-use block, in order, with matching invocation
id and the joined (truncated) textual tool result as content, and
appends all of them as one single new user-role message right after the
assistant message, before looping. -/
theorem claim_C7_tool_results (model : Nat → ModelResponse)
    (toolResp : String → Json → String) (fuel k : Nat) (conv : List Message)
    (st : MCPState) (rs : List ToolResultBlock)
    (hne : truthyErr (model k) = none)
    (hsr : (model k).stop_reason = "tool_use")
    (hrs : mkToolResults toolResp (model k).content = .ok rs) :
    run_loop model toolResp (fuel + 1) k conv st =
      addRound (run_loop model toolResp fuel (k + 1)
        (conv ++ [assistantMsgOf (model k), ⟨"user", .toolResults rs⟩]) st)
    ∧ List.Forall₂ (PairedResult toolResp) (toolUses (model k).content) rs := by
  constructor
  · simp [run_loop, hne, hsr, hrs]
  · exact mkToolResults_spec toolResp _ rs hrs

/-- Witness for claim C7: the model requests tool `list_issues` with
empty arguments, the tool responds with one text part `issue #1`; the
assembled result block carries the request id and content `issue #1`,
appended as a single user message. -/
theorem claim_C7_witness :
    run_loop (fun _ => ⟨none, [.tool_use "toolu_1" "list_issues" (.obj [])], "tool_use"⟩)
        (fun _ _ => "\x7b\"result\": \x7b\"content\": [\x7b\"text\": \"issue #1\"\x7d]\x7d\x7d")
        1 0 [] (mcpInit "u") =
      addRound (run_loop
        (fun _ => ⟨none, [.tool_use "toolu_1" "list_issues" (.obj [])], "tool_use"⟩)
        (fun _ _ => "\x7b\"result\": \x7b\"content\": [\x7b\"text\": \"issue #1\"\x7d]\x7d\x7d")
        0 1
        [⟨"assistant", .blocks [.tool_use "toolu_1" "list_issues" (.obj [])]⟩,
         ⟨"user", .toolResults [⟨"toolu_1", "issue #1"⟩]⟩] (mcpInit "u"))
    ∧ List.Forall₂
        (PairedResult (fun _ _ =>
          "\x7b\"result\": \x7b\"content\": [\x7b\"text\": \"issue #1\"\x7d]\x7d\x7d"))
        [("toolu_1", "list_issues", Json.obj [])] [⟨"toolu_1", "issue #1"⟩] := by
  have h := claim_C7_tool_results
    (fun _ => ⟨none, [.tool_use "toolu_1" "list_issues" (.obj [])], "tool_use"⟩)
    (fun _ _ => "\x7b\"result\": \x7b\"content\": [\x7b\"text\": \"issue #1\"\x7d]\x7d\x7d")
    0 0 [] (mcpInit "u") [⟨"toolu_1", "issue #1"⟩] rfl rfl (by rfl)
  exact h

/-! ## Claim C3 -/

/-- When every round errs on the side of more tools — no error field,
stop reason always `tool_use`, and every tool-result assembly succeeds —
the loop consumes its entire fuel, performing exactly `fuel` model
round-trips, and ends in the maximum-iterations result with the client
state unchanged. -/
lemma run_loop_all_tool_use (model : Nat → ModelResponse)
    (toolResp : String → Json → String)
    (herr : ∀ k, truthyErr (model k) = none)
    (hsr : ∀ k, (model k).stop_reason = "tool_use")
    (htr : ∀ k, ∃ rs, mkToolResults toolResp (model k).content = .ok rs) :
    ∀ fuel k conv st, ∃ conv2,
      run_loop model toolResp fuel k conv st = ⟨.maxIterations, fuel, conv2, st⟩ := by
  intro fuel
  induction fuel with
  | zero => intro k conv st; exact ⟨conv, rfl⟩
  | succ fuel ih =>
    intro k conv st
    obtain ⟨rs, hrs⟩ := htr k
    obtain ⟨conv2, hc⟩ :=
      ih (k + 1) (conv ++ [assistantMsgOf (model k), ⟨"user", .toolResults rs⟩]) st
    refine ⟨conv2, ?_⟩
    simp [run_loop, herr k, hsr k, hrs, hc, addRound]

/-- Claim C3: for every sequence of model responses whose stop reason is
always `tool_use` and that never carries an error (and whose requested
tool calls all complete), `run_agent` terminates with the
maximum-iterations result after exactly 10 model round-trips — never 11
and never fewer. -/
theorem claim_C3_exactly_ten_rounds (model : Nat → ModelResponse)
    (toolResp : String → Json → String) (umsg : String) (st : MCPState)
    (conv : List Message) (ats : List Json)
    (hats : tools_to_anthropic_format st.tools = .ok ats)
    (herr : ∀ k, truthyErr (model k) = none)
    (hsr : ∀ k, (model k).stop_reason = "tool_use")
    (htr : ∀ k, ∃ rs, mkToolResults toolResp (model k).content = .ok rs) :
    ∃ conv2, run_agent model toolResp umsg st conv = ⟨.maxIterations, 10, conv2, st⟩ := by
  obtain ⟨conv2, h⟩ := run_loop_all_tool_use model toolResp herr hsr htr 10 0
    (conv ++ [⟨"user", .str umsg⟩]) st
  exact ⟨conv2, by simp [run_agent, hats, h]⟩

/-- Witness for claim C3: a model that always answers `tool_use` with no
content blocks drives the turn to exactly 10 round-trips and the
maximum-iterations result. -/
theorem claim_C3_witness :
    ∃ conv2, run_agent (fun _ => ⟨none, [], "tool_use"⟩) (fun _ _ => "")
      "hi" (mcpInit "u") [] = ⟨.maxIterations, 10, conv2, mcpInit "u"⟩ := by
  exact claim_C3_exactly_ten_rounds (fun _ => ⟨none, [], "tool_use"⟩) (fun _ _ => "")
    "hi" (mcpInit "u") [] [] rfl (fun _ => rfl) (fun _ => rfl) (fun _ => ⟨[], rfl⟩)

/-! ## Claim C4 -/

/-- The loop only ever appends to the transcript: whatever happens, the
transcript it was entered with is a prefix of the transcript it leaves
behind (also when it leaves by a raised exception). -/
lemma run_loop_conv_mono (model : Nat → ModelResponse)
    (toolResp : String → Json → String) :
    ∀ fuel k conv st, conv <+: (run_loop model toolResp fuel k conv st).conv := by
  intro fuel
  induction fuel with
  | zero => intro k conv st; exact List.prefix_refl _
  | succ fuel ih =>
    intro k conv st
    cases h : truthyErr (model k) with
    | some e => simp [run_loop, h]
    | none =>
      by_cases hs : (model k).stop_reason = "end_turn"
      · simp [run_loop, h, hs]
      · by_cases ht2 : (model k).stop_reason = "tool_use"
        · cases hm : mkToolResults toolResp (model k).content with
          | error e =>
            simp [run_loop, h, hs, ht2, hm]
          | ok rs =>
            have hrec := ih (k + 1)
              (conv ++ [assistantMsgOf (model k), ⟨"user", .toolResults rs⟩]) st
            have hpre : conv <+:
                conv ++ [assistantMsgOf (model k), ⟨"user", .toolResults rs⟩] :=
              List.prefix_append _ _
            simp [run_loop, h, hs, ht2, hm, addRound]
            exact hpre.trans hrec
        · have hrec := ih (k + 1) (conv ++ [assistantMsgOf (model k)]) st
          have hpre : conv <+: conv ++ [assistantMsgOf (model k)] :=
            List.prefix_append _ _
          simp [run_loop, h, hs, ht2, addRound]
          exact hpre.trans hrec

/-- Every non-error model response consumed by the loop leaves its full
content block sequence in the final transcript as an assistant
message. -/
lemma run_loop_assistant_mem (model : Nat → ModelResponse)
    (toolResp : String → Json → String) :
    ∀ fuel k conv st i, k ≤ i →
      i < k + (run_loop model toolResp fuel k conv st).rounds →
      truthyErr (model i) = none →
      assistantMsgOf (model i) ∈ (run_loop model toolResp fuel k conv st).conv := by
  intro fuel
  induction fuel with
  | zero =>
    intro k conv st i hki hlt _
    simp [run_loop] at hlt
    omega
  | succ fuel ih =>
    intro k conv st i hki hlt hne
    cases h : truthyErr (model k) with
    | some e =>
      simp [run_loop, h] at hlt ⊢
      have hik : i = k := by omega
      subst hik
      rw [hne] at h
      cases h
    | none =>
      by_cases hs : (model k).stop_reason = "end_turn"
      · simp [run_loop, h, hs] at hlt ⊢
        have hik : i = k := by omega
        subst hik
        simp [assistantMsgOf]
      · by_cases ht2 : (model k).stop_reason = "tool_use"
        · cases hm : mkToolResults toolResp (model k).content with
          | error e =>
            simp [run_loop, h, hs, ht2, hm] at hlt ⊢
            have hik : i = k := by omega
            subst hik
            simp [assistantMsgOf]
          | ok rs =>
            simp only [run_loop, h, hs, ht2, hm] at hlt ⊢
            rcases Nat.lt_or_ge k i with hki2 | hki2
            · have := ih (k + 1)
                (conv ++ [assistantMsgOf (model k), ⟨"user", .toolResults rs⟩]) st i
                hki2 (by simp [addRound] at hlt; omega) hne
              simpa [addRound] using this
            · have hik : i = k := Nat.le_antisymm hki2 hki
              subst hik
              have hmem : assistantMsgOf (model i) ∈
                  conv ++ [assistantMsgOf (model i), ⟨"user", .toolResults rs⟩] := by
                simp
              have hpre := run_loop_conv_mono model toolResp fuel (i + 1)
                (conv ++ [assistantMsgOf (model i), ⟨"user", .toolResults rs⟩]) st
              simpa [addRound] using hpre.subset hmem
        · simp only [run_loop, h] at hlt ⊢
          rcases Nat.lt_or_ge k i with hki2 | hki2
          · have := ih (k + 1) (conv ++ [assistantMsgOf (model k)]) st i
              hki2 (by simp [hs, ht2, addRound] at hlt; omega) hne
            simpa [hs, ht2, addRound] using this
          · have hik : i = k := Nat.le_antisymm hki2 hki
            subst hik
            have hmem : assistantMsgOf (model i) ∈
                conv ++ [assistantMsgOf (model i)] := by simp
            have hpre := run_loop_conv_mono model toolResp fuel (i + 1)
              (conv ++ [assistantMsgOf (model i)]) st
            simpa [hs, ht2, addRound] using hpre.subset hmem

/-- Claim C4: the transcript is append-only throughout `run_agent` — the
transcript passed in is always a prefix of the final transcript, no
message being edited or removed — and for every non-error model response
consumed, its full content block sequence appears in the final
transcript as an assistant message (regardless of stop reason). -/
theorem claim_C4_append_only (model : Nat → ModelResponse)
    (toolResp : String → Json → String) :
    (∀ fuel k conv st, conv <+: (run_loop model toolResp fuel k conv st).conv)
    ∧ (∀ umsg st conv, conv <+: (run_agent model toolResp umsg st conv).conv)
    ∧ (∀ umsg st conv i, i < (run_agent model toolResp umsg st conv).rounds →
        truthyErr (model i) = none →
        assistantMsgOf (model i) ∈ (run_agent model toolResp umsg st conv).conv) := by
  refine ⟨run_loop_conv_mono model toolResp, fun umsg st conv => ?_,
    fun umsg st conv i hlt hne => ?_⟩
  · cases hats : tools_to_anthropic_format st.tools with
    | error e => simp [run_agent, hats]
    | ok ats =>
      simp only [run_agent, hats]
      exact (List.prefix_append conv [⟨"user", .str umsg⟩]).trans
        (run_loop_conv_mono model toolResp 10 0 (conv ++ [⟨"user", .str umsg⟩]) st)
  · cases hats : tools_to_anthropic_format st.tools with
    | error e => simp [run_agent, hats] at hlt
    | ok ats =>
      simp only [run_agent, hats] at hlt ⊢
      exact run_loop_assistant_mem model toolResp 10 0
        (conv ++ [⟨"user", .str umsg⟩]) st i (Nat.zero_le i)
        (by omega) hne

/-- Witness for claim C4 at a concrete one-round run: the preexisting
transcript survives as a prefix and the assistant message of the single
consumed response is present. -/
theorem claim_C4_witness :
    ([⟨"user", MsgContent.str "old"⟩] : List Message) <+:
      (run_agent (fun _ => ⟨none, [.text "A"], "end_turn"⟩) (fun _ _ => "")
        "hi" (mcpInit "u") [⟨"user", MsgContent.str "old"⟩]).conv
    ∧ assistantMsgOf ⟨none, [.text "A"], "end_turn"⟩ ∈
      (run_agent (fun _ => ⟨none, [.text "A"], "end_turn"⟩) (fun _ _ => "")
        "hi" (mcpInit "u") [⟨"user", MsgContent.str "old"⟩]).conv := by
  have h := claim_C4_append_only (fun _ => ⟨none, [.text "A"], "end_turn"⟩) (fun _ _ => "")
  exact ⟨h.2.1 "hi" (mcpInit "u") [⟨"user", MsgContent.str "old"⟩],
    h.2.2 "hi" (mcpInit "u") [⟨"user", MsgContent.str "old"⟩] 0 (by decide) rfl⟩
